import Mathlib

/-!
Verification of the dynamic-registration service against its specification.

The development shallowly embeds the JavaScript sources:
* `shared/validation.js` (`validateFields` and the per-type validators),
* the legacy inline validation loop of the original registration route,
* `utils/tenantConnection.js` (`getTenantConnection`) and
  `models/DynamicUser.js` (`getUserModel`) as an explicit state machine,
* the user-listing, get-by-id and schema-update route handlers.

JavaScript objects used as string-keyed maps are modelled as association
lists with JavaScript assignment semantics (`jsInsert`): assignment to an
existing key overwrites in place, assignment to a fresh key appends.
Submitted values are modelled as strings (`none` = property absent), which
covers every behaviour the claims quantify over.  Regular-expression
compilation (`new RegExp`) is abstracted as a `RegexEngine` parameter whose
`compile` returns `none` exactly when the JavaScript constructor would
throw; the three fixed regex literals of the source are translated to
executable character-level recognisers.
-/

namespace DynReg

/-- Characters matched by the JavaScript whitespace class used by `trim` and
the regex class `\s` (restricted to the ASCII range over which the model's
strings run). -/
def jsIsWhitespace (c : Char) : Bool :=
  c == ' ' || c == '\t' || c == '\n' || c == '\r' || c == '\x0b' || c == '\x0c'

/-- JavaScript `String.prototype.trim`: drop leading and trailing whitespace. -/
def jsTrim (s : String) : String :=
  ⟨((s.data.dropWhile jsIsWhitespace).reverse.dropWhile jsIsWhitespace).reverse⟩

/-- Property read `obj[k]` on a JavaScript object modelled as an association
list: first binding wins (`jsInsert` keeps keys unique, so it is the only
binding). `none` plays the role of `undefined`. -/
def jsLookup (l : List (String × α)) (k : String) : Option α :=
  match l with
  | [] => none
  | (k', v) :: rest => if k' = k then some v else jsLookup rest k

/-- Property write `obj[k] = v` on a JavaScript object: overwrite in place if
the key exists, otherwise append (JavaScript objects preserve insertion
order of keys). -/
def jsInsert (l : List (String × α)) (k : String) (v : α) : List (String × α) :=
  match l with
  | [] => [(k, v)]
  | (k', v') :: rest => if k' = k then (k, v) :: rest else (k', v') :: jsInsert rest k v

/-- JavaScript `a || b` for an optional string `a` (absent and empty strings
are falsy). -/
def jsOrDefault (a : Option String) (b : String) : String :=
  match a with
  | none => b
  | some s => if s == "" then b else s

@[simp] theorem jsLookup_nil (k : String) : jsLookup ([] : List (String × α)) k = none := rfl

theorem jsLookup_cons (k k' : String) (v : α) (rest : List (String × α)) :
    jsLookup ((k', v) :: rest) k = if k' = k then some v else jsLookup rest k := rfl

theorem jsLookup_pair_cons (k : String) (p : String × α) (rest : List (String × α)) :
    jsLookup (p :: rest) k = if p.1 = k then some p.2 else jsLookup rest k := by
  cases p
  rfl

/-- Writing a key that is not yet present appends the binding. -/
theorem jsInsert_fresh (l : List (String × α)) (k : String) (v : α)
    (h : k ∉ l.map Prod.fst) : jsInsert l k v = l ++ [(k, v)] := by
  induction l with
  | nil => rfl
  | cons p rest ih =>
    simp only [List.map_cons, List.mem_cons] at h
    push_neg at h
    cases p with
    | mk k' v' =>
      simp only [jsInsert]
      rw [if_neg (fun hk => h.1 hk.symm), ih h.2]
      rfl

/-- Every binding of the object after a write is an old binding or the
written one. -/
theorem mem_jsInsert (l : List (String × α)) (k : String) (v : α) (e : String × α)
    (he : e ∈ jsInsert l k v) : e ∈ l ∨ e = (k, v) := by
  induction l with
  | nil =>
    simp only [jsInsert] at he
    rcases List.mem_cons.mp he with he | he
    · exact Or.inr he
    · cases he
  | cons p rest ih =>
    obtain ⟨pk, pv⟩ := p
    simp only [jsInsert] at he
    by_cases hp : pk = k
    · rw [if_pos hp] at he
      rcases List.mem_cons.mp he with he | he
      · exact Or.inr he
      · exact Or.inl (List.mem_cons_of_mem _ he)
    · rw [if_neg hp] at he
      rcases List.mem_cons.mp he with he | he
      · exact Or.inl (he ▸ List.mem_cons_self _ _)
      · rcases ih he with h3 | h3
        · exact Or.inl (List.mem_cons_of_mem _ h3)
        · exact Or.inr h3

end DynReg

namespace DynReg

/-! ## Data model (`models/FieldSchema.js`) -/

/-- One entry of a select field's `options` array. -/
structure SelectOption where
  label : String
  value : String
deriving DecidableEq, Repr

/-- The `validation` sub-document of a field definition.  `minLength`,
`maxLength` and `pattern` default to `null` in the Mongoose schema, modelled
as `none`. -/
structure Validation where
  required : Bool
  minLength : Option Nat
  maxLength : Option Nat
  pattern : Option String
deriving DecidableEq, Repr

/-- One field definition of a tenant's schema.  `type` is the raw string tag
(the Mongoose enum restricts it to text/email/phone/number/textarea/select
but the validator dispatches on the string with a default branch).
`errorMessage` is `none` when absent. -/
structure Field where
  id : String
  label : String
  type : String
  options : List SelectOption
  validation : Validation
  errorMessage : Option String
deriving DecidableEq, Repr

/-- Abstraction of the JavaScript `RegExp` engine: `compile p` is `none`
exactly when `new RegExp(p)` would throw, and otherwise yields the `test`
function of the compiled regex. -/
structure RegexEngine where
  compile : String → Option (String → Bool)

/-! ## Shared validation engine (`shared/validation.js`) -/

/-- Recogniser for the email regex literal of the source. A string matches
the anchored regex (one or more non-space-non-at characters, an at sign, one
or more non-space-non-at characters, a literal dot, one or more
non-space-non-at characters) iff it has no whitespace, exactly one at sign,
a non-empty local part, and a dot strictly inside the domain part (the
character class after the at sign admits further dots, so only the existence
of one interior dot is required). -/
def emailRegexTest (s : String) : Bool :=
  let cs := s.data
  (!cs.any jsIsWhitespace) &&
  (cs.count '@' == 1) &&
  (!(cs.takeWhile (· != '@')).isEmpty) &&
  ((((cs.dropWhile (· != '@')).drop 1).drop 1).dropLast.contains '.')

/-- The character filter of the phone cleaner: whitespace, hyphens and
parentheses are removed before testing. -/
def phoneStrippedChar (c : Char) : Bool :=
  jsIsWhitespace c || c == '-' || c == '(' || c == ')'

/-- Recogniser for the phone regex literal: ten to fifteen digits. -/
def phoneRegexTest (s : String) : Bool :=
  s.data.all Char.isDigit && decide (10 ≤ s.length) && decide (s.length ≤ 15)

def isHexDigitChar (c : Char) : Bool :=
  c.isDigit || ('a' ≤ c && c ≤ 'f') || ('A' ≤ c && c ≤ 'F')

/-- Optional exponent part of a JavaScript numeric literal. -/
def jsExpOk (cs : List Char) : Bool :=
  match cs with
  | [] => true
  | c :: rest =>
    (c == 'e' || c == 'E') &&
    (match rest with
     | '+' :: ds => !ds.isEmpty && ds.all Char.isDigit
     | '-' :: ds => !ds.isEmpty && ds.all Char.isDigit
     | ds => !ds.isEmpty && ds.all Char.isDigit)

/-- Decimal body of a JavaScript numeric literal (after an optional sign):
digits, optionally a dot and more digits, with at least one digit overall,
then an optional exponent. -/
def jsDecimalTail (cs : List Char) : Bool :=
  let ip := cs.takeWhile Char.isDigit
  let rest := cs.dropWhile Char.isDigit
  match rest with
  | '.' :: rest2 =>
    let fp := rest2.takeWhile Char.isDigit
    let rest3 := rest2.dropWhile Char.isDigit
    (!ip.isEmpty || !fp.isEmpty) && jsExpOk rest3
  | _ => !ip.isEmpty && jsExpOk rest

/-- Does `Number(s)` produce a non-NaN value?  Trims whitespace; the empty
remainder coerces to zero; otherwise a signed decimal or Infinity literal,
or an unsigned hex/octal/binary literal. `isNaN(s)` is the negation. -/
def jsNumberParses (s : String) : Bool :=
  match (jsTrim s).data with
  | [] => true
  | '0' :: 'x' :: rest => !rest.isEmpty && rest.all isHexDigitChar
  | '0' :: 'X' :: rest => !rest.isEmpty && rest.all isHexDigitChar
  | '0' :: 'o' :: rest => !rest.isEmpty && rest.all (fun c => '0' ≤ c && c ≤ '7')
  | '0' :: 'O' :: rest => !rest.isEmpty && rest.all (fun c => '0' ≤ c && c ≤ '7')
  | '0' :: 'b' :: rest => !rest.isEmpty && rest.all (fun c => c == '0' || c == '1')
  | '0' :: 'B' :: rest => !rest.isEmpty && rest.all (fun c => c == '0' || c == '1')
  | '+' :: rest => rest = "Infinity".data || jsDecimalTail rest
  | '-' :: rest => rest = "Infinity".data || jsDecimalTail rest
  | cs => cs = "Infinity".data || jsDecimalTail cs

/-- `validateEmail` of `shared/validation.js`. -/
def validateEmail (value : String) (errorMessage : String) : Option String :=
  if emailRegexTest value then none else some errorMessage

/-- `validatePhone` of `shared/validation.js`: strip formatting characters,
then require ten to fifteen digits. -/
def validatePhone (value : String) (errorMessage : String) : Option String :=
  if phoneRegexTest ⟨value.data.filter (fun c => !phoneStrippedChar c)⟩ then none
  else some errorMessage

/-- `validateNumber` of `shared/validation.js`: `isNaN(value) || value === ''`. -/
def validateNumber (value : String) (errorMessage : String) : Option String :=
  if !jsNumberParses value || value == "" then some errorMessage else none

/-- `validateSelect` of `shared/validation.js`: with no options the check
passes trivially, otherwise the value must be one of the option values. -/
def validateSelect (value : String) (options : List SelectOption)
    (errorMessage : String) : Option String :=
  if options.isEmpty then none
  else if (options.map SelectOption.value).contains value then none
  else some errorMessage

/-- `validateByType` of `shared/validation.js`: dispatch on the field type
string; unknown types (including text and textarea) pass. -/
def validateByType (field : Field) (value : String) : Option String :=
  if field.type == "email" then
    validateEmail value (jsOrDefault field.errorMessage "Please enter a valid email address")
  else if field.type == "phone" then
    validatePhone value (jsOrDefault field.errorMessage "Please enter a valid phone number")
  else if field.type == "number" then
    validateNumber value (jsOrDefault field.errorMessage "Please enter a valid number")
  else if field.type == "select" then
    validateSelect value field.options (jsOrDefault field.errorMessage "Please select a valid option")
  else none

/-- The minimum-length check of `validateFields`.  The JavaScript guard is
`field.validation.minLength && length < minLength`; a zero bound is falsy
and disables the check. -/
def lengthMinError (field : Field) (s : String) : Option String :=
  match field.validation.minLength with
  | none => none
  | some n =>
    if n != 0 && s.length < n then
      some (field.label ++ " must be at least " ++ toString n ++ " characters")
    else none

/-- The maximum-length check of `validateFields`, with the same truthiness
guard as the minimum-length check. -/
def lengthMaxError (field : Field) (s : String) : Option String :=
  match field.validation.maxLength with
  | none => none
  | some n =>
    if n != 0 && s.length > n then
      some (field.label ++ " must not exceed " ++ toString n ++ " characters")
    else none

/-- The pattern check of `validateFields` (shared variant): an absent or
empty (falsy) pattern is skipped; a pattern the engine cannot compile is
caught, logged and skipped; otherwise a failed test reports the field's
custom message or the default format message. -/
def patternCheckError (rx : RegexEngine) (field : Field) (s : String) : Option String :=
  match field.validation.pattern with
  | none => none
  | some p =>
    if p == "" then none
    else
      match rx.compile p with
      | none => none
      | some test =>
        if test s then none
        else some (jsOrDefault field.errorMessage (field.label ++ " format is invalid"))

/-- The straight-line check chain run on a present, non-empty value:
minimum length, maximum length, pattern, then the type-specific check; the
first failure wins. -/
def fieldCheckError (rx : RegexEngine) (field : Field) (s : String) : Option String :=
  match lengthMinError field s with
  | some m => some m
  | none =>
    match lengthMaxError field s with
    | some m => some m
    | none =>
      match patternCheckError rx field s with
      | some m => some m
      | none => validateByType field s

/-- The emptiness test `(!value || String(value).trim() === '')` applied to
a possibly-absent string value. -/
def isEmptyOrMissing (v : Option String) : Bool :=
  match v with
  | none => true
  | some s => s == "" || jsTrim s == ""

/-- Default required message of `validateFields`. -/
def requiredMsg (field : Field) : String :=
  jsOrDefault field.errorMessage (field.label ++ " is required")

/-- Result record of `validateFields`. -/
structure ValidationResult where
  isValid : Bool
  errors : List (String × String)
  validatedFields : List (String × String)
deriving DecidableEq, Repr

/-- The per-field loop of `validateFields`: accumulates the `errors` and
`validatedFields` objects exactly as the source's `for` loop with its
`continue` statements does. -/
def runFields (rx : RegexEngine) (submitted : List (String × String)) :
    List Field → List (String × String) → List (String × String) →
    List (String × String) × List (String × String)
  | [], errors, validated => (errors, validated)
  | field :: rest, errors, validated =>
    match jsLookup submitted field.id with
    | none =>
      if field.validation.required then
        runFields rx submitted rest (jsInsert errors field.id (requiredMsg field)) validated
      else
        runFields rx submitted rest errors validated
    | some s =>
      if field.validation.required && (s == "" || jsTrim s == "") then
        runFields rx submitted rest (jsInsert errors field.id (requiredMsg field)) validated
      else if s == "" || jsTrim s == "" then
        runFields rx submitted rest errors validated
      else
        match fieldCheckError rx field s with
        | some msg => runFields rx submitted rest (jsInsert errors field.id msg) validated
        | none => runFields rx submitted rest errors (jsInsert validated field.id s)

/-- `validateFields` of `shared/validation.js`. -/
def validateFields (rx : RegexEngine) (schemaFields : List Field)
    (submittedData : List (String × String)) : ValidationResult :=
  let (errors, validatedFields) := runFields rx submittedData schemaFields [] []
  { isValid := errors.length == 0
    errors := errors
    validatedFields := validatedFields }

/-! ## Specification-side description of the per-field outcome

The claims describe `validateFields` as applying, per field, the rules
required, minLength, maxLength, pattern, type-specific in that order, the
first failing rule producing the field's single error message.  The
following definitions state that description; the refinement theorems below
relate them to the loop implementation. -/

/-- The validation rules, in the order the specification lists them. -/
inductive Rule where
  | required
  | minLength
  | maxLength
  | ruleOfPattern
  | typeSpecific
deriving DecidableEq, Repr

/-- First failing rule (with its message) for one field and one submitted
value, per the specification's rule order; `none` means the field passes or
is skipped as absent and optional. -/
def specFieldFailure (rx : RegexEngine) (field : Field) (v : Option String) :
    Option (Rule × String) :=
  if field.validation.required && isEmptyOrMissing v then
    some (Rule.required, requiredMsg field)
  else if isEmptyOrMissing v then
    none
  else
    match v with
    | none => none
    | some s =>
      match lengthMinError field s with
      | some m => some (Rule.minLength, m)
      | none =>
        match lengthMaxError field s with
        | some m => some (Rule.maxLength, m)
        | none =>
          match patternCheckError rx field s with
          | some m => some (Rule.ruleOfPattern, m)
          | none =>
            match validateByType field s with
            | some m => some (Rule.typeSpecific, m)
            | none => none

/-- A value counts as present for `validatedFields` when the property exists
and is non-empty after trimming. -/
def presentNonEmpty (v : Option String) : Bool :=
  match v with
  | none => false
  | some s => !(s == "" || jsTrim s == "")

/-- Error entry the specification predicts for one field. -/
def specErrorEntry (rx : RegexEngine) (submitted : List (String × String))
    (field : Field) : Option (String × String) :=
  (specFieldFailure rx field (jsLookup submitted field.id)).map (fun p => (field.id, p.2))

/-- Accepted-value entry the specification predicts for one field. -/
def specValidatedEntry (rx : RegexEngine) (submitted : List (String × String))
    (field : Field) : Option (String × String) :=
  match jsLookup submitted field.id with
  | none => none
  | some s =>
    if presentNonEmpty (some s) && (specFieldFailure rx field (some s)).isNone then
      some (field.id, s)
    else none

theorem runFields_append (rx : RegexEngine) (submitted : List (String × String))
    (fields : List Field) (errors validated : List (String × String))
    (hnd : (fields.map Field.id).Nodup)
    (herr : ∀ f ∈ fields, f.id ∉ errors.map Prod.fst)
    (hval : ∀ f ∈ fields, f.id ∉ validated.map Prod.fst) :
    runFields rx submitted fields errors validated =
      (errors ++ fields.filterMap (specErrorEntry rx submitted),
       validated ++ fields.filterMap (specValidatedEntry rx submitted)) := by
  induction fields generalizing errors validated with
  | nil => simp [runFields]
  | cons field rest ih =>
    simp only [List.map_cons, List.nodup_cons] at hnd
    have hfe : field.id ∉ errors.map Prod.fst := herr field (List.mem_cons_self _ _)
    have hfv : field.id ∉ validated.map Prod.fst := hval field (List.mem_cons_self _ _)
    have herr' : ∀ msg, ∀ f ∈ rest, f.id ∉ (jsInsert errors field.id msg).map Prod.fst := by
      intro msg f hf
      rw [jsInsert_fresh errors field.id msg hfe]
      simp only [List.map_append, List.mem_append, List.map_cons, List.map_nil,
        List.mem_singleton, not_or]
      refine ⟨herr f (List.mem_cons_of_mem _ hf), ?_⟩
      intro hcontra
      exact hnd.1 (hcontra ▸ List.mem_map_of_mem Field.id hf)
    have hval' : ∀ s, ∀ f ∈ rest, f.id ∉ (jsInsert validated field.id s).map Prod.fst := by
      intro s f hf
      rw [jsInsert_fresh validated field.id s hfv]
      simp only [List.map_append, List.mem_append, List.map_cons, List.map_nil,
        List.mem_singleton, not_or]
      refine ⟨hval f (List.mem_cons_of_mem _ hf), ?_⟩
      intro hcontra
      exact hnd.1 (hcontra ▸ List.mem_map_of_mem Field.id hf)
    have herrR : ∀ f ∈ rest, f.id ∉ errors.map Prod.fst :=
      fun f hf => herr f (List.mem_cons_of_mem _ hf)
    have hvalR : ∀ f ∈ rest, f.id ∉ validated.map Prod.fst :=
      fun f hf => hval f (List.mem_cons_of_mem _ hf)
    simp only [runFields]
    split
    case _ hv =>
      -- value absent
      split
      case _ hreq =>
        rw [ih _ _ hnd.2 (herr' _) hvalR,
            jsInsert_fresh errors field.id (requiredMsg field) hfe]
        simp [specErrorEntry, specValidatedEntry, specFieldFailure, hv, hreq,
          isEmptyOrMissing, List.append_assoc]
      case _ hreq =>
        rw [Bool.not_eq_true] at hreq
        rw [ih _ _ hnd.2 herrR hvalR]
        simp [specErrorEntry, specValidatedEntry, specFieldFailure, hv, hreq,
          isEmptyOrMissing]
    case _ s hv =>
      split
      case _ hcond =>
        -- required and empty after trimming
        rw [Bool.and_eq_true] at hcond
        obtain ⟨hreq, hemp⟩ := hcond
        rw [ih _ _ hnd.2 (herr' _) hvalR,
            jsInsert_fresh errors field.id (requiredMsg field) hfe]
        simp [specErrorEntry, specValidatedEntry, specFieldFailure, hv, hreq,
          isEmptyOrMissing, hemp, presentNonEmpty, List.append_assoc]
      case _ hcond =>
        split
        case _ hemp =>
          -- empty and optional: skipped
          have hreq : field.validation.required = false := by
            cases h : field.validation.required with
            | false => rfl
            | true => exact absurd (by simp [h, hemp]) hcond
          rw [ih _ _ hnd.2 herrR hvalR]
          simp [specErrorEntry, specValidatedEntry, specFieldFailure, hv, hreq,
            isEmptyOrMissing, hemp, presentNonEmpty]
        case _ hemp =>
          rw [Bool.not_eq_true] at hemp
          split
          case _ msg hchk =>
            rw [ih _ _ hnd.2 (herr' _) hvalR,
                jsInsert_fresh errors field.id msg hfe]
            have hr : ∃ r, specFieldFailure rx field (some s) = some (r, msg) := by
              simp only [fieldCheckError] at hchk
              simp only [specFieldFailure, isEmptyOrMissing, hemp, Bool.and_false,
                Bool.false_eq_true, if_false]
              cases h1 : lengthMinError field s with
              | some m =>
                simp only [h1, Option.some.injEq] at hchk
                exact ⟨Rule.minLength, by simp [hchk]⟩
              | none =>
                simp only [h1] at hchk
                cases h2 : lengthMaxError field s with
                | some m =>
                  simp only [h2, Option.some.injEq] at hchk
                  exact ⟨Rule.maxLength, by simp [hchk]⟩
                | none =>
                  simp only [h2] at hchk
                  cases h3 : patternCheckError rx field s with
                  | some m =>
                    simp only [h3, Option.some.injEq] at hchk
                    exact ⟨Rule.ruleOfPattern, by simp [hchk]⟩
                  | none =>
                    simp only [h3] at hchk
                    exact ⟨Rule.typeSpecific, by simp [hchk]⟩
            obtain ⟨r, hr⟩ := hr
            have herrEntry : specErrorEntry rx submitted field = some (field.id, msg) := by
              simp [specErrorEntry, hv, hr]
            have hvalEntry : specValidatedEntry rx submitted field = none := by
              simp [specValidatedEntry, hv, hr]
            simp [herrEntry, hvalEntry, List.append_assoc]
          case _ hchk =>
            rw [ih _ _ hnd.2 herrR (hval' _),
                jsInsert_fresh validated field.id s hfv]
            have hfail : specFieldFailure rx field (some s) = none := by
              simp only [fieldCheckError] at hchk
              simp only [specFieldFailure, isEmptyOrMissing, hemp, Bool.and_false,
                Bool.false_eq_true, if_false]
              cases h1 : lengthMinError field s with
              | some m => simp [h1] at hchk
              | none =>
                simp only [h1] at hchk
                cases h2 : lengthMaxError field s with
                | some m => simp [h2] at hchk
                | none =>
                  simp only [h2] at hchk
                  cases h3 : patternCheckError rx field s with
                  | some m => simp [h3] at hchk
                  | none =>
                    simp only [h3] at hchk
                    simp [hchk]
            have herrEntry : specErrorEntry rx submitted field = none := by
              simp [specErrorEntry, hv, hfail]
            have hvalEntry : specValidatedEntry rx submitted field = some (field.id, s) := by
              simp [specValidatedEntry, hv, hfail, presentNonEmpty, hemp]
            simp [herrEntry, hvalEntry, List.append_assoc]

/-- The loop result, from empty accumulators, is exactly the
specification-side description. -/
theorem validateFields_eq_spec (rx : RegexEngine) (schemaFields : List Field)
    (submitted : List (String × String))
    (hnd : (schemaFields.map Field.id).Nodup) :
    validateFields rx schemaFields submitted =
      { isValid := (schemaFields.filterMap (specErrorEntry rx submitted)).length == 0
        errors := schemaFields.filterMap (specErrorEntry rx submitted)
        validatedFields := schemaFields.filterMap (specValidatedEntry rx submitted) } := by
  have h := runFields_append rx submitted schemaFields [] [] hnd
    (by intro f _ h; simp at h) (by intro f _ h; simp at h)
  simp only [List.nil_append] at h
  simp [validateFields, h]

/-- Keys of the predicted error entries are field ids, so a key outside the
schema suffix is absent from its error entries. -/
theorem jsLookup_filterMap_specError (rx : RegexEngine) (D : List (String × String))
    (rest : List Field) (k : String) (hk : k ∉ rest.map Field.id) :
    jsLookup (rest.filterMap (specErrorEntry rx D)) k = none := by
  induction rest with
  | nil => rfl
  | cons g gs ih =>
    simp only [List.map_cons, List.mem_cons, not_or] at hk
    cases hg : specErrorEntry rx D g with
    | none => simpa [hg] using ih hk.2
    | some e =>
      have hkey : e.1 = g.id := by
        simp only [specErrorEntry, Option.map_eq_some'] at hg
        obtain ⟨p, -, hp⟩ := hg
        rw [← hp]
      simp only [List.filterMap_cons, hg]
      rw [jsLookup_pair_cons, hkey, if_neg (fun hcontra => hk.1 hcontra.symm)]
      exact ih hk.2

/-- Looking up a schema field's id in the produced `errors` object yields
exactly the message of that field's first failing rule (when any). -/
theorem errors_lookup (rx : RegexEngine) (S : List Field) (D : List (String × String))
    (f : Field) (hf : f ∈ S) (hnd : (S.map Field.id).Nodup) :
    jsLookup (validateFields rx S D).errors f.id =
      (specFieldFailure rx f (jsLookup D f.id)).map (fun p => p.2) := by
  rw [validateFields_eq_spec rx S D hnd]
  simp only
  induction S with
  | nil => cases hf
  | cons g gs ih =>
    simp only [List.map_cons, List.nodup_cons] at hnd
    rcases List.mem_cons.mp hf with hfg | hmem
    · subst hfg
      cases hg : specErrorEntry rx D f with
      | none =>
        simp only [List.filterMap_cons, hg]
        have : (specFieldFailure rx f (jsLookup D f.id)).map (fun p => p.2) = none := by
          simp only [specErrorEntry] at hg
          simp [Option.map_eq_none'] at hg ⊢
          exact hg
        rw [this]
        exact jsLookup_filterMap_specError rx D gs f.id hnd.1
      | some e =>
        simp only [specErrorEntry, Option.map_eq_some'] at hg
        obtain ⟨p, hp, -⟩ := hg
        simp only [List.filterMap_cons, specErrorEntry, hp, Option.map_some']
        rw [jsLookup_pair_cons]
        simp [hp]
    · have hne : g.id ≠ f.id := by
        intro hcontra
        exact hnd.1 (hcontra ▸ List.mem_map_of_mem Field.id hmem)
      cases hg : specErrorEntry rx D g with
      | none => simpa [List.filterMap_cons, hg] using ih hmem hnd.2
      | some e =>
        have hkey : e.1 = g.id := by
          simp only [specErrorEntry, Option.map_eq_some'] at hg
          obtain ⟨p, -, hp⟩ := hg
          rw [← hp]
        simp only [List.filterMap_cons, hg]
        rw [jsLookup_pair_cons, hkey, if_neg hne]
        exact ih hmem hnd.2

/-! ## Concrete sample data

The tenant-xyz seed schema of `server.js` and two regex engines used for
concrete evaluations: `rxAll` compiles every pattern to an accept-all test,
`rxLit` rejects the pattern consisting of a single opening parenthesis (the
canonical string `new RegExp` throws on) and compiles every other pattern to
a literal comparison. -/

def rxAll : RegexEngine := ⟨fun _ => some (fun _ => true)⟩

def rxLit : RegexEngine :=
  ⟨fun p => if p = "(" then none else some (fun s => s == p)⟩

def nameField : Field :=
  { id := "name", label := "Full Name", type := "text", options := []
    validation := { required := true, minLength := some 2, maxLength := some 50,
                    pattern := none }
    errorMessage := some "Please enter your full name (2-50 characters)" }

def emailField : Field :=
  { id := "email", label := "Email Address", type := "email", options := []
    validation := { required := true, minLength := none, maxLength := none,
                    pattern := none }
    errorMessage := some "Please enter a valid email address" }

def schemaXyz : List Field := [nameField, emailField]

/-! ## Claim C1 -/

/-- C1: for every schema field list and submitted mapping (with the schema
invariant that field ids are unique), `validateFields` returns
`isValid = true` iff the errors object is empty; the errors object holds
exactly the failing field ids, each mapped to the single message of the
first failing rule in the order required, minLength, maxLength, pattern,
type-specific (`specFieldFailure`); and `validatedFields` holds exactly the
fields present with a non-empty value that passed every applicable check. -/
theorem validateFields_characterisation (rx : RegexEngine) (S : List Field)
    (D : List (String × String)) (hnd : (S.map Field.id).Nodup) :
    ((validateFields rx S D).isValid = true ↔ (validateFields rx S D).errors = []) ∧
    (validateFields rx S D).errors = S.filterMap (specErrorEntry rx D) ∧
    (validateFields rx S D).validatedFields = S.filterMap (specValidatedEntry rx D) := by
  rw [validateFields_eq_spec rx S D hnd]
  refine ⟨?_, rfl, rfl⟩
  simp

/-- Witness for C1 at the seeded tenant-xyz schema and the specification's
Scenario A submission: the name passes, the email fails its type check. -/
theorem validateFields_characterisation_witness :
    (validateFields rxAll schemaXyz [("name", "Jo"), ("email", "bad")]).errors
        = [("email", "Please enter a valid email address")] ∧
    (validateFields rxAll schemaXyz [("name", "Jo"), ("email", "bad")]).validatedFields
        = [("name", "Jo")] ∧
    ((validateFields rxAll schemaXyz [("name", "Jo"), ("email", "bad")]).isValid = true ↔
      (validateFields rxAll schemaXyz [("name", "Jo"), ("email", "bad")]).errors = []) := by
  refine ⟨by decide, by decide, ?_⟩
  exact (validateFields_characterisation rxAll schemaXyz
    [("name", "Jo"), ("email", "bad")] (by decide)).1

/-! ## Claim C2 -/

/-- C2: for every schema field with `validation.required = true` (under the
unique-ids schema invariant), `validateFields` reports a required-rule error
on the field iff the submitted value is absent or empty after trimming; the
message is the field's `errorMessage` when present (and non-empty) and
otherwise the default `<label> is required`; and no other check contributes,
i.e. with a present non-empty value the field's first failing rule is never
the required rule. -/
theorem required_check_characterisation (rx : RegexEngine) (S : List Field)
    (D : List (String × String)) (f : Field) (hf : f ∈ S)
    (hnd : (S.map Field.id).Nodup) (hreq : f.validation.required = true) :
    (isEmptyOrMissing (jsLookup D f.id) = true →
      specFieldFailure rx f (jsLookup D f.id) =
        some (Rule.required, jsOrDefault f.errorMessage (f.label ++ " is required")) ∧
      jsLookup (validateFields rx S D).errors f.id =
        some (jsOrDefault f.errorMessage (f.label ++ " is required"))) ∧
    (isEmptyOrMissing (jsLookup D f.id) = false →
      ∀ m, specFieldFailure rx f (jsLookup D f.id) ≠ some (Rule.required, m)) := by
  constructor
  · intro hemp
    have hfail : specFieldFailure rx f (jsLookup D f.id) =
        some (Rule.required, jsOrDefault f.errorMessage (f.label ++ " is required")) := by
      simp [specFieldFailure, hreq, hemp, requiredMsg]
    refine ⟨hfail, ?_⟩
    rw [errors_lookup rx S D f hf hnd, hfail]
    rfl
  · intro hemp m
    cases hv : jsLookup D f.id with
    | none => rw [hv] at hemp; simp [isEmptyOrMissing] at hemp
    | some s =>
      rw [hv] at hemp
      simp only [isEmptyOrMissing] at hemp
      simp only [specFieldFailure, isEmptyOrMissing, hemp, Bool.and_false,
        Bool.false_eq_true, if_false]
      cases lengthMinError f s with
      | some m1 => simp
      | none =>
        cases lengthMaxError f s with
        | some m2 => simp
        | none =>
          cases patternCheckError rx f s with
          | some m3 => simp
          | none =>
            cases validateByType f s with
            | some m4 => simp
            | none => simp

/-- Witness for C2 at Scenario B: the required name field is submitted
empty, so its custom error message is reported. -/
theorem required_check_characterisation_witness :
    isEmptyOrMissing (jsLookup [("name", ""), ("email", "a@b.com")] nameField.id) = true ∧
    jsLookup (validateFields rxAll schemaXyz [("name", ""), ("email", "a@b.com")]).errors
        nameField.id = some "Please enter your full name (2-50 characters)" := by
  refine ⟨by decide, ?_⟩
  have h := (required_check_characterisation rxAll schemaXyz
    [("name", ""), ("email", "a@b.com")] nameField (by decide) (by decide) (by decide)).1
    (by decide)
  exact h.2

/-! ## Claim C10 -/

/-- Erase length bounds that are exactly zero, leaving the rest of the field
unchanged. -/
def dropZeroLengthBounds (f : Field) : Field :=
  { f with validation :=
    { f.validation with
        minLength := match f.validation.minLength with
          | some 0 => none
          | v => v
        maxLength := match f.validation.maxLength with
          | some 0 => none
          | v => v } }

theorem lengthMinError_dropZero (f : Field) (s : String) :
    lengthMinError (dropZeroLengthBounds f) s = lengthMinError f s := by
  cases hm : f.validation.minLength with
  | none => simp [lengthMinError, dropZeroLengthBounds, hm]
  | some n =>
    cases n with
    | zero => simp [lengthMinError, dropZeroLengthBounds, hm]
    | succ k => simp [lengthMinError, dropZeroLengthBounds, hm]

theorem lengthMaxError_dropZero (f : Field) (s : String) :
    lengthMaxError (dropZeroLengthBounds f) s = lengthMaxError f s := by
  cases hm : f.validation.maxLength with
  | none => simp [lengthMaxError, dropZeroLengthBounds, hm]
  | some n =>
    cases n with
    | zero => simp [lengthMaxError, dropZeroLengthBounds, hm]
    | succ k => simp [lengthMaxError, dropZeroLengthBounds, hm]

theorem fieldCheckError_dropZero (rx : RegexEngine) (f : Field) (s : String) :
    fieldCheckError rx (dropZeroLengthBounds f) s = fieldCheckError rx f s := by
  simp only [fieldCheckError, lengthMinError_dropZero, lengthMaxError_dropZero]
  rfl

theorem runFields_dropZero (rx : RegexEngine) (submitted : List (String × String))
    (fields : List Field) (errors validated : List (String × String)) :
    runFields rx submitted (fields.map dropZeroLengthBounds) errors validated =
      runFields rx submitted fields errors validated := by
  induction fields generalizing errors validated with
  | nil => rfl
  | cons f rest ih =>
    simp only [List.map_cons, runFields, fieldCheckError_dropZero]
    have hid : (dropZeroLengthBounds f).id = f.id := rfl
    have hreq : (dropZeroLengthBounds f).validation.required = f.validation.required := rfl
    have hmsg : requiredMsg (dropZeroLengthBounds f) = requiredMsg f := rfl
    rw [hid, hreq, hmsg]
    cases jsLookup submitted f.id with
    | none =>
      cases f.validation.required with
      | true => simp [ih]
      | false => simp [ih]
    | some s =>
      by_cases hemp : (s == "" || jsTrim s == "") = true
      · cases f.validation.required with
        | true => simp [hemp, ih]
        | false => simp [hemp, ih]
      · rw [Bool.not_eq_true] at hemp
        simp only [hemp, Bool.and_false, Bool.false_eq_true, if_false]
        cases fieldCheckError rx f s with
        | some msg => simp [ih]
        | none => simp [ih]

/-- C10: a `minLength` or `maxLength` of zero is falsy in the JavaScript
guard, so `validateFields` behaves exactly as if the bound were absent; in
particular a field with `maxLength = 0` accepts present values of any
length instead of rejecting every non-empty value. -/
theorem zero_length_bounds_ignored (rx : RegexEngine) (S : List Field)
    (D : List (String × String)) :
    validateFields rx (S.map dropZeroLengthBounds) D = validateFields rx S D := by
  simp [validateFields, runFields_dropZero]

/-! ## Claim C3 -/

/-- Remove the pattern constraint from a field when the engine cannot
compile it (and the pattern is truthy, i.e. would have been checked). -/
def stripUncompilable (rx : RegexEngine) (f : Field) : Field :=
  match f.validation.pattern with
  | none => f
  | some p =>
    if p == "" then f
    else
      match rx.compile p with
      | none => { f with validation := { f.validation with pattern := none } }
      | some _ => f

theorem patternCheckError_strip (rx : RegexEngine) (f : Field) (s : String) :
    patternCheckError rx (stripUncompilable rx f) s = patternCheckError rx f s := by
  cases hp : f.validation.pattern with
  | none => simp [patternCheckError, stripUncompilable, hp]
  | some p =>
    by_cases he : (p == "") = true
    · simp [patternCheckError, stripUncompilable, hp, he]
    · cases hc : rx.compile p with
      | none => simp [patternCheckError, stripUncompilable, hp, he, hc]
      | some test => simp [patternCheckError, stripUncompilable, hp, he, hc]

theorem fieldCheckError_strip (rx : RegexEngine) (f : Field) (s : String) :
    fieldCheckError rx (stripUncompilable rx f) s = fieldCheckError rx f s := by
  have h1 : lengthMinError (stripUncompilable rx f) s = lengthMinError f s := by
    simp only [stripUncompilable]
    cases f.validation.pattern with
    | none => rfl
    | some p =>
      by_cases he : (p == "") = true
      · simp [he]
      · cases hc : rx.compile p with
        | none => simp [he, hc, lengthMinError]
        | some test => simp [he, hc]
  have h2 : lengthMaxError (stripUncompilable rx f) s = lengthMaxError f s := by
    simp only [stripUncompilable]
    cases f.validation.pattern with
    | none => rfl
    | some p =>
      by_cases he : (p == "") = true
      · simp [he]
      · cases hc : rx.compile p with
        | none => simp [he, hc, lengthMaxError]
        | some test => simp [he, hc]
  have h3 : validateByType (stripUncompilable rx f) s = validateByType f s := by
    simp only [stripUncompilable]
    cases f.validation.pattern with
    | none => rfl
    | some p =>
      by_cases he : (p == "") = true
      · simp [he]
      · cases hc : rx.compile p with
        | none => simp [he, hc, validateByType]
        | some test => simp [he, hc]
  simp only [fieldCheckError, h1, h2, h3, patternCheckError_strip]

theorem runFields_strip (rx : RegexEngine) (submitted : List (String × String))
    (fields : List Field) (errors validated : List (String × String)) :
    runFields rx submitted (fields.map (stripUncompilable rx)) errors validated =
      runFields rx submitted fields errors validated := by
  induction fields generalizing errors validated with
  | nil => rfl
  | cons f rest ih =>
    have hid : (stripUncompilable rx f).id = f.id := by
      simp only [stripUncompilable]
      cases f.validation.pattern with
      | none => rfl
      | some p =>
        by_cases he : (p == "") = true
        · simp [he]
        · cases hc : rx.compile p with
          | none => simp [he, hc]
          | some test => simp [he, hc]
    have hreq : (stripUncompilable rx f).validation.required = f.validation.required := by
      simp only [stripUncompilable]
      cases f.validation.pattern with
      | none => rfl
      | some p =>
        by_cases he : (p == "") = true
        · simp [he]
        · cases hc : rx.compile p with
          | none => simp [he, hc]
          | some test => simp [he, hc]
    have hmsg : requiredMsg (stripUncompilable rx f) = requiredMsg f := by
      simp only [stripUncompilable]
      cases f.validation.pattern with
      | none => rfl
      | some p =>
        by_cases he : (p == "") = true
        · simp [he]
        · cases hc : rx.compile p with
          | none => simp [he, hc, requiredMsg]
          | some test => simp [he, hc]
    simp only [List.map_cons, runFields, fieldCheckError_strip, hid, hreq, hmsg]
    cases jsLookup submitted f.id with
    | none =>
      cases f.validation.required with
      | true => simp [ih]
      | false => simp [ih]
    | some s =>
      by_cases hemp : (s == "" || jsTrim s == "") = true
      · cases f.validation.required with
        | true => simp [hemp, ih]
        | false => simp [hemp, ih]
      · rw [Bool.not_eq_true] at hemp
        simp only [hemp, Bool.and_false, Bool.false_eq_true, if_false]
        cases fieldCheckError rx f s with
        | some msg => simp [ih]
        | none => simp [ih]

/-- C3 for the shared engine: an uncompilable pattern never surfaces as an
error from `validateFields` (the function is total and the compile failure
is caught and skipped), and the overall result is identical to that for the
schema with every such pattern removed. -/
theorem bad_pattern_skipped (rx : RegexEngine) (S : List Field)
    (D : List (String × String)) :
    validateFields rx (S.map (stripUncompilable rx)) D = validateFields rx S D := by
  simp [validateFields, runFields_strip]

/-! ## Legacy inline validation loop (original registration route)

The first version of `registrationRoutes.js` validates inline inside the
request handler.  Its length and required logic matches the shared engine,
but its regex block has no try/catch: `new RegExp(pattern)` throwing
escapes to the route's catch-all, and only email and phone have
type-specific checks. -/

/-- Type-specific checks of the inline loop (email then phone only). -/
def inlineTypeError (field : Field) (s : String) : Option String :=
  if field.type == "email" then
    if emailRegexTest s then none
    else some (jsOrDefault field.errorMessage "Please enter a valid email address")
  else if field.type == "phone" then
    if phoneRegexTest ⟨s.data.filter (fun c => !phoneStrippedChar c)⟩ then none
    else some (jsOrDefault field.errorMessage "Please enter a valid phone number")
  else none

/-- The inline pattern block: a truthy pattern is compiled WITHOUT a
try/catch, so a compile failure is a thrown exception (`Except.error`). -/
def inlinePatternStage (rx : RegexEngine) (field : Field) (s : String) :
    Except String (Option String) :=
  match field.validation.pattern with
  | none => .ok none
  | some p =>
    if p == "" then .ok none
    else
      match rx.compile p with
      | none => .error ("Invalid regular expression: " ++ p)
      | some test =>
        if test s then .ok none
        else .ok (some (jsOrDefault field.errorMessage (field.label ++ " format is invalid")))

/-- The inline per-field validation loop of the original route. -/
def inlineRunFields (rx : RegexEngine) (submitted : List (String × String)) :
    List Field → List (String × String) → List (String × String) →
    Except String (List (String × String) × List (String × String))
  | [], errors, validated => .ok (errors, validated)
  | field :: rest, errors, validated =>
    match jsLookup submitted field.id with
    | none =>
      if field.validation.required then
        inlineRunFields rx submitted rest (jsInsert errors field.id (requiredMsg field)) validated
      else
        inlineRunFields rx submitted rest errors validated
    | some s =>
      if field.validation.required && (s == "" || jsTrim s == "") then
        inlineRunFields rx submitted rest (jsInsert errors field.id (requiredMsg field)) validated
      else if s == "" || jsTrim s == "" then
        inlineRunFields rx submitted rest errors validated
      else
        match lengthMinError field s with
        | some m => inlineRunFields rx submitted rest (jsInsert errors field.id m) validated
        | none =>
          match lengthMaxError field s with
          | some m => inlineRunFields rx submitted rest (jsInsert errors field.id m) validated
          | none =>
            match inlinePatternStage rx field s with
            | .error e => .error e
            | .ok (some m) =>
              inlineRunFields rx submitted rest (jsInsert errors field.id m) validated
            | .ok none =>
              match inlineTypeError field s with
              | some m => inlineRunFields rx submitted rest (jsInsert errors field.id m) validated
              | none => inlineRunFields rx submitted rest errors (jsInsert validated field.id s)

/-- HTTP status produced by the original POST /register handler once the
schema fetch succeeded and (on the success path) the save succeeded: a
thrown exception reaches the catch-all (500), validation errors give 400
and an accepted submission 201. -/
def oldRegisterStatus (rx : RegexEngine) (schemaFields : List Field)
    (submitted : List (String × String)) : Nat :=
  match inlineRunFields rx submitted schemaFields [] [] with
  | .error _ => 500
  | .ok (errors, _) => if errors.length == 0 then 201 else 400

/-- A field whose admin-supplied pattern is the canonical string that
`new RegExp` throws on. -/
def badPatternField : Field :=
  { id := "code", label := "Code", type := "text", options := []
    validation := { required := true, minLength := none, maxLength := none,
                    pattern := some "(" }
    errorMessage := none }

/-- The same field with the uncompilable pattern removed. -/
def badPatternFieldNoPat : Field :=
  { badPatternField with
      validation := { badPatternField.validation with pattern := none } }

/-- Counterexample to C3 as stated: in the legacy inline registration
handler (cited by the claim) an uncompilable pattern is NOT skipped — the
compile failure escapes the validation loop as an exception and the caller
receives a 500 server error, while the same schema with that pattern
removed accepts the submission. -/
theorem inline_bad_pattern_raises :
    inlineRunFields rxLit [("code", "x")] [badPatternField] [] []
        = .error "Invalid regular expression: (" ∧
    oldRegisterStatus rxLit [badPatternField] [("code", "x")] = 500 ∧
    oldRegisterStatus rxLit [badPatternFieldNoPat] [("code", "x")] = 201 :=
  ⟨rfl, rfl, rfl⟩

/-! ## Tenant storage router

`utils/tenantConnection.js` keeps a module-level cache of per-tenant
mongoose connections; `getTenantConnection` normalizes the tenant id,
returns a cached live connection, and otherwise starts a connection open,
awaits it, caches it on success and rethrows on failure.  The function is
modelled as a two-phase task (the synchronous section up to the single
`await`, and the resumption after it) over an explicit process state, so
that both a full uninterleaved run (`resolveRun`) and arbitrary cooperative
interleavings of several calls (`runSched`) are expressible. -/

/-- Tenant-id normalization (`tenantId.toLowerCase().replace(/[^a-z0-9]/g, '')`). -/
def normalizeTenantId (t : String) : String :=
  ⟨(t.data.map Char.toLower).filter (fun c => ('a' ≤ c && c ≤ 'z') || ('0' ≤ c && c ≤ '9'))⟩

/-- The tenant database name `tenant_` + normalized id (line 46 of the
connection manager); it names the isolation namespace. -/
def dbNameOf (t : String) : String := "tenant_" ++ normalizeTenantId t

/-- A mongoose connection handle, as far as the claims observe it: the
database it points at, its readyState, and an identity distinguishing
separately created connection objects. -/
structure Conn where
  dbName : String
  readyState : Nat
  id : Nat
deriving DecidableEq, Repr

/-- Process-wide state: the `tenantConnections` cache object, the number of
connection-open sequences started so far, and a fresh-identity counter. -/
structure RState where
  cache : List (String × Conn)
  opens : Nat
  nextId : Nat
deriving DecidableEq, Repr

/-- The cache check (lines 29-34): a cached connection is returned only
when its readyState is 1; a stale entry falls through to a fresh open. -/
def checkCache (t : String) (st : RState) : Option Conn :=
  match jsLookup st.cache (normalizeTenantId t) with
  | none => none
  | some c => if c.readyState == 1 then some c else none

/-- Start of a connection open (`mongoose.createConnection` on the tenant
URI followed by awaiting the open event): yields the connecting handle and
counts one open sequence. -/
def beginOpen (t : String) (st : RState) : Conn × RState :=
  (⟨dbNameOf t, 0, st.nextId⟩,
   { st with opens := st.opens + 1, nextId := st.nextId + 1 })

/-- Completion of the awaited open.  `fate` is the environment's verdict
per open attempt (by connection identity): on success the now-ready
connection is cached under the normalized key and returned; on failure the
error is rethrown as a storage-unavailable error (the wrapped driver
message is elided) and the cache is untouched. -/
def finishOpen (fate : Nat → Bool) (t : String) (c : Conn) (st : RState) :
    Except String Conn × RState :=
  if fate c.id then
    (.ok { c with readyState := 1 },
     { st with cache := jsInsert st.cache (normalizeTenantId t) { c with readyState := 1 } })
  else
    (.error "Failed to connect to tenant database: connection error", st)

/-- One full, uninterleaved run of `getTenantConnection`. -/
def resolveRun (fate : Nat → Bool) (t : String) (st : RState) :
    Except String Conn × RState :=
  match checkCache t st with
  | some c => (.ok c, st)
  | none =>
    let (c, st1) := beginOpen t st
    finishOpen fate t c st1

/-- Phase of one in-flight `getTenantConnection` call. -/
inductive Phase where
  | start
  | awaiting (c : Conn)
  | done (r : Except String Conn)

/-- Is a task still in its initial phase? -/
def isStartB : Phase → Bool
  | Phase.start => true
  | _ => false

@[simp] theorem isStartB_start : isStartB Phase.start = true := rfl

@[simp] theorem isStartB_awaiting (c : Conn) : isStartB (Phase.awaiting c) = false := rfl

@[simp] theorem isStartB_done (r : Except String Conn) : isStartB (Phase.done r) = false := rfl

/-- One cooperative step of a call: the synchronous section up to the
await (cache check, else begin an open), or the resumption after it. -/
def stepTask (fate : Nat → Bool) (t : String) :
    Phase × RState → Phase × RState
  | (Phase.start, st) =>
    match checkCache t st with
    | some c => (Phase.done (.ok c), st)
    | none =>
      let (c, st1) := beginOpen t st
      (Phase.awaiting c, st1)
  | (Phase.awaiting c, st) =>
    let (r, st1) := finishOpen fate t c st
    (Phase.done r, st1)
  | (Phase.done r, st) => (Phase.done r, st)

/-- Run one scheduled step on task `i` of the pool (out-of-range indices
are no-ops). -/
def schedStep (fate : Nat → Bool) (t : String) (tasks : List Phase)
    (st : RState) (i : Nat) : List Phase × RState :=
  match tasks.get? i with
  | none => (tasks, st)
  | some ph =>
    let (ph1, st1) := stepTask fate t (ph, st)
    (tasks.set i ph1, st1)

/-- Run a cooperative schedule (a list of task indices) over a task pool. -/
def runSched (fate : Nat → Bool) (t : String) :
    List Nat → List Phase × RState → List Phase × RState
  | [], p => p
  | i :: rest, (tasks, st) => runSched fate t rest (schedStep fate t tasks st i)

/-- N concurrent `getTenantConnection t` calls from a fresh process state,
interleaved according to `sched`. -/
def runResolves (fate : Nat → Bool) (t : String) (n : Nat) (sched : List Nat) :
    List Phase × RState :=
  runSched fate t sched (List.replicate n Phase.start, ⟨[], 0, 0⟩)

/-- The environment in which every connection open succeeds. -/
def fateOK : Nat → Bool := fun _ => true

/-- A fresh process state: empty cache, no opens yet. -/
def st0 : RState := ⟨[], 0, 0⟩

/-- Two sequential resolves from a fresh state (all opens succeeding). -/
def resolveTwice (t1 t2 : String) : Except String Conn × Except String Conn × RState :=
  ((resolveRun fateOK t1 st0).1,
   (resolveRun fateOK t2 (resolveRun fateOK t1 st0).2).1,
   (resolveRun fateOK t2 (resolveRun fateOK t1 st0).2).2)

theorem tenant_prefix_cancel (a b : String) :
    ("tenant_" ++ a = "tenant_" ++ b) ↔ a = b := by
  constructor
  · intro h
    have h2 := congrArg String.data h
    simp only [String.data_append] at h2
    exact String.ext (List.append_cancel_left h2)
  · intro h
    rw [h]

/-- C4: from a fresh state, resolving raw tenant ids t1 then t2: the first
call opens and returns the handle to database `tenant_` + normalized t1;
the second call returns the very same cached handle when the normalized
forms coincide (with no further open) and a fresh handle in its own
namespace otherwise (a second open); handles coincide iff the normalized
forms do, and so do the database names. -/
theorem tenant_namespace_characterisation (t1 t2 : String) :
    (resolveTwice t1 t2).1 = .ok ⟨dbNameOf t1, 1, 0⟩ ∧
    (resolveTwice t1 t2).2.1 =
      .ok (if normalizeTenantId t1 = normalizeTenantId t2
           then (⟨dbNameOf t1, 1, 0⟩ : Conn) else ⟨dbNameOf t2, 1, 1⟩) ∧
    ((resolveTwice t1 t2).2.1 = (resolveTwice t1 t2).1 ↔
        normalizeTenantId t1 = normalizeTenantId t2) ∧
    (dbNameOf t1 = dbNameOf t2 ↔ normalizeTenantId t1 = normalizeTenantId t2) ∧
    (resolveTwice t1 t2).2.2.opens =
      (if normalizeTenantId t1 = normalizeTenantId t2 then 1 else 2) := by
  have h1 : resolveRun fateOK t1 st0 =
      (.ok ⟨dbNameOf t1, 1, 0⟩,
       ⟨[(normalizeTenantId t1, ⟨dbNameOf t1, 1, 0⟩)], 1, 1⟩) := rfl
  have hdb : (dbNameOf t1 = dbNameOf t2) ↔
      (normalizeTenantId t1 = normalizeTenantId t2) := by
    simp only [dbNameOf]
    exact tenant_prefix_cancel _ _
  by_cases hk : normalizeTenantId t1 = normalizeTenantId t2
  · have h2 : resolveRun fateOK t2
        (⟨[(normalizeTenantId t1, ⟨dbNameOf t1, 1, 0⟩)], 1, 1⟩ : RState) =
        (.ok ⟨dbNameOf t1, 1, 0⟩,
         ⟨[(normalizeTenantId t1, ⟨dbNameOf t1, 1, 0⟩)], 1, 1⟩) := by
      simp [resolveRun, checkCache, jsLookup, hk]
    refine ⟨?_, ?_, ?_, hdb, ?_⟩
    · simp [resolveTwice, h1]
    · simp only [resolveTwice, h1, h2, if_pos hk]
    · simp only [resolveTwice, h1, h2]
      simp [hk]
    · simp only [resolveTwice, h1, h2]
      rw [if_pos hk]
  · have h2 : resolveRun fateOK t2
        (⟨[(normalizeTenantId t1, ⟨dbNameOf t1, 1, 0⟩)], 1, 1⟩ : RState) =
        (.ok ⟨dbNameOf t2, 1, 1⟩,
         ⟨jsInsert [(normalizeTenantId t1, ⟨dbNameOf t1, 1, 0⟩)]
            (normalizeTenantId t2) ⟨dbNameOf t2, 1, 1⟩, 2, 2⟩) := by
      simp [resolveRun, checkCache, jsLookup, hk, beginOpen, finishOpen, fateOK, dbNameOf]
    refine ⟨?_, ?_, ?_, hdb, ?_⟩
    · simp [resolveTwice, h1]
    · simp only [resolveTwice, h1, h2, if_neg hk]
    · simp only [resolveTwice, h1, h2]
      exact iff_of_false (by simp) hk
    · simp only [resolveTwice, h1, h2]
      rw [if_neg hk]

/-- C6: when the connection open fails, `getTenantConnection` surfaces a
storage-unavailable error, the handle cache is left exactly as it was (the
failed handle is not stored), and a later call for the same tenant starts a
fresh open attempt (the open counter advances again instead of a cached
handle being served). -/
theorem failed_open_not_cached (fate : Nat → Bool) (t : String) (st : RState)
    (hmiss : checkCache t st = none) (hfail : fate st.nextId = false) :
    resolveRun fate t st =
      (.error "Failed to connect to tenant database: connection error",
       { st with opens := st.opens + 1, nextId := st.nextId + 1 }) ∧
    (resolveRun fate t st).2.cache = st.cache ∧
    (∀ fate2 : Nat → Bool,
      (resolveRun fate2 t (resolveRun fate t st).2).2.opens = st.opens + 2) := by
  have hrun : resolveRun fate t st =
      (.error "Failed to connect to tenant database: connection error",
       { st with opens := st.opens + 1, nextId := st.nextId + 1 }) := by
    simp [resolveRun, hmiss, beginOpen, finishOpen, hfail]
  refine ⟨hrun, by rw [hrun], ?_⟩
  intro fate2
  rw [hrun]
  have hmiss2 : checkCache t { st with opens := st.opens + 1, nextId := st.nextId + 1 } = none := by
    simpa [checkCache] using hmiss
  simp only [resolveRun, hmiss2, beginOpen]
  cases hf2 : fate2 (st.nextId + 1) with
  | true => simp [finishOpen, hf2]
  | false => simp [finishOpen, hf2]

/-- Witness for C6 at a fresh state and tenant xyz, with an environment in
which every open fails: the call errors, the cache stays empty, and the
retry performs a second open attempt. -/
theorem failed_open_not_cached_witness :
    resolveRun (fun _ => false) "xyz" st0 =
      (.error "Failed to connect to tenant database: connection error",
       { st0 with opens := 1, nextId := 1 }) ∧
    (resolveRun (fun _ => false) "xyz" st0).2.cache = st0.cache ∧
    (resolveRun (fun _ => true) "xyz"
        (resolveRun (fun _ => false) "xyz" st0).2).2.opens = 2 :=
  (failed_open_not_cached (fun _ => false) "xyz" st0 rfl rfl).imp id
    (fun h => ⟨h.1, h.2 (fun _ => true)⟩)

/-! ## Concurrency of resolve (claim C5) -/

theorem jsLookup_mem (l : List (String × α)) (k : String) (v : α)
    (h : jsLookup l k = some v) : (k, v) ∈ l := by
  induction l with
  | nil => simp [jsLookup] at h
  | cons p rest ih =>
    rw [jsLookup_pair_cons] at h
    by_cases hk : p.1 = k
    · rw [if_pos hk] at h
      injection h with h
      have hp : (k, v) = p := by
        rw [← hk, ← h]
      rw [hp]
      exact List.mem_cons_self _ _
    · rw [if_neg hk] at h
      exact List.mem_cons_of_mem _ (ih h)

theorem countP_set_balance (p : α → Bool) (l : List α) (i : Nat) (a b : α)
    (h : l.get? i = some b) :
    (l.set i a).countP p + (if p b then 1 else 0) =
      l.countP p + (if p a then 1 else 0) := by
  induction l generalizing i with
  | nil => simp at h
  | cons x xs ih =>
    cases i with
    | zero =>
      simp only [List.get?] at h
      injection h with h
      subst h
      simp only [List.set, List.countP_cons]
      omega
    | succ n =>
      simp only [List.get?] at h
      simp only [List.set, List.countP_cons]
      have := ih n h
      omega

/-- Invariant of an interleaved pool of `getTenantConnection t` calls (all
opens succeeding): pending and finished handles point at the tenant's
namespace, the cache only holds ready handles for the tenant's key, the
open count never exceeds the number of calls that have left their initial
phase, and it is positive as soon as anything is cached or any call has
progressed. -/
def SchedInv (t : String) (n0 : Nat) (tasks : List Phase) (st : RState) : Prop :=
  (∀ c : Conn, Phase.awaiting c ∈ tasks → c.dbName = dbNameOf t) ∧
  (∀ r : Except String Conn, Phase.done r ∈ tasks →
      ∃ c : Conn, r = Except.ok c ∧ c.dbName = dbNameOf t) ∧
  (∀ e ∈ st.cache,
      e.1 = normalizeTenantId t ∧ (e.2).dbName = dbNameOf t ∧ (e.2).readyState = 1) ∧
  st.opens + tasks.countP isStartB ≤ n0 ∧
  tasks.length = n0 ∧
  (st.cache ≠ [] → 1 ≤ st.opens) ∧
  (0 < tasks.countP (fun ph => !(isStartB ph)) → 1 ≤ st.opens)

theorem schedStep_inv (fate : Nat → Bool) (hfate : ∀ k, fate k = true)
    (t : String) (n0 : Nat) (tasks : List Phase) (st : RState) (i : Nat)
    (h : SchedInv t n0 tasks st) :
    SchedInv t n0 (schedStep fate t tasks st i).1 (schedStep fate t tasks st i).2 := by
  obtain ⟨hA, hD, hC, hB, hL, hP1, hP2⟩ := h
  cases hget : tasks.get? i with
  | none =>
    have hstep : schedStep fate t tasks st i = (tasks, st) := by
      simp only [schedStep, hget]
    have hstep1 : (schedStep fate t tasks st i).1 = tasks := by rw [hstep]
    have hstep2 : (schedStep fate t tasks st i).2 = st := by rw [hstep]
    rw [hstep1, hstep2]
    exact ⟨hA, hD, hC, hB, hL, hP1, hP2⟩
  | some ph =>
    have hmem : ph ∈ tasks := List.get?_mem hget
    cases ph with
    | start =>
      cases hcc : checkCache t st with
      | some c =>
        -- cache hit: the task completes with the cached ready handle
        have hstep : schedStep fate t tasks st i
            = (tasks.set i (Phase.done (Except.ok c)), st) := by
          simp only [schedStep, hget, stepTask, hcc]
        have hstep1 : (schedStep fate t tasks st i).1
            = tasks.set i (Phase.done (Except.ok c)) := by rw [hstep]
        have hstep2 : (schedStep fate t tasks st i).2 = st := by rw [hstep]
        rw [hstep1, hstep2]
        have hcv : (normalizeTenantId t, c) ∈ st.cache := by
          simp only [checkCache] at hcc
          split at hcc
          · cases hcc
          · rename_i c0 hjl
            split at hcc
            · injection hcc with hcc
              subst hcc
              exact jsLookup_mem _ _ _ hjl
            · cases hcc
        have hcdb : c.dbName = dbNameOf t := (hC _ hcv).2.1
        have hopens : 1 ≤ st.opens := hP1 (by intro hnil; rw [hnil] at hcv; cases hcv)
        have hcnt := countP_set_balance isStartB tasks i (Phase.done (.ok c)) Phase.start hget
        simp at hcnt
        refine ⟨?_, ?_, hC, ?_, ?_, hP1, ?_⟩
        · intro c2 hm
          rcases List.mem_or_eq_of_mem_set hm with hm2 | hm2
          · exact hA c2 hm2
          · cases hm2
        · intro r hm
          rcases List.mem_or_eq_of_mem_set hm with hm2 | hm2
          · exact hD r hm2
          · injection hm2 with hm2
            exact ⟨c, hm2, hcdb⟩
        · omega
        · rw [List.length_set]; exact hL
        · intro _; exact hopens
      | none =>
        -- cache miss: the task starts an open and suspends
        have hstep : schedStep fate t tasks st i
            = (tasks.set i (Phase.awaiting ⟨dbNameOf t, 0, st.nextId⟩),
               { st with opens := st.opens + 1, nextId := st.nextId + 1 }) := by
          simp only [schedStep, hget, stepTask, hcc, beginOpen]
        have hstep1 : (schedStep fate t tasks st i).1
            = tasks.set i (Phase.awaiting ⟨dbNameOf t, 0, st.nextId⟩) := by rw [hstep]
        have hstep2 : (schedStep fate t tasks st i).2
            = { st with opens := st.opens + 1, nextId := st.nextId + 1 } := by rw [hstep]
        rw [hstep1, hstep2]
        have hcnt := countP_set_balance isStartB tasks i
          (Phase.awaiting ⟨dbNameOf t, 0, st.nextId⟩) Phase.start hget
        simp at hcnt
        refine ⟨?_, ?_, hC, ?_, ?_, ?_, ?_⟩
        · intro c2 hm
          rcases List.mem_or_eq_of_mem_set hm with hm2 | hm2
          · exact hA c2 hm2
          · injection hm2 with hm2
            rw [hm2]
        · intro r hm
          rcases List.mem_or_eq_of_mem_set hm with hm2 | hm2
          · exact hD r hm2
          · cases hm2
        · dsimp only
          omega
        · rw [List.length_set]; exact hL
        · intro _; dsimp only; omega
        · intro _; dsimp only; omega
    | awaiting c =>
      -- resumption: the open succeeds, the handle is cached and returned
      have hstep : schedStep fate t tasks st i
          = (tasks.set i (Phase.done (.ok { c with readyState := 1 })),
             { st with cache :=
                jsInsert st.cache (normalizeTenantId t) { c with readyState := 1 } }) := by
        simp only [schedStep, hget, stepTask, finishOpen, hfate c.id, if_pos]
      have hstep1 : (schedStep fate t tasks st i).1
          = tasks.set i (Phase.done (.ok { c with readyState := 1 })) := by rw [hstep]
      have hstep2 : (schedStep fate t tasks st i).2
          = { st with cache :=
                jsInsert st.cache (normalizeTenantId t) { c with readyState := 1 } } := by
        rw [hstep]
      rw [hstep1, hstep2]
      have hcdb : c.dbName = dbNameOf t := hA c hmem
      have hopens : 1 ≤ st.opens := by
        apply hP2
        rw [List.countP_pos_iff]
        exact ⟨Phase.awaiting c, hmem, by simp⟩
      have hcnt := countP_set_balance isStartB tasks i
        (Phase.done (.ok { c with readyState := 1 })) (Phase.awaiting c) hget
      simp at hcnt
      have hc' : ({ c with readyState := 1 } : Conn).dbName = dbNameOf t := hcdb
      refine ⟨?_, ?_, ?_, ?_, ?_, ?_, ?_⟩
      · intro c2 hm
        rcases List.mem_or_eq_of_mem_set hm with hm2 | hm2
        · exact hA c2 hm2
        · cases hm2
      · intro r hm
        rcases List.mem_or_eq_of_mem_set hm with hm2 | hm2
        · exact hD r hm2
        · injection hm2 with hm2
          exact ⟨{ c with readyState := 1 }, hm2, hc'⟩
      · intro e he
        rcases mem_jsInsert _ _ _ e he with h3 | h3
        · exact hC e h3
        · rw [h3]
          exact ⟨rfl, hc', rfl⟩
      · dsimp only
        omega
      · rw [List.length_set]; exact hL
      · intro _; exact hopens
      · intro _; exact hopens
    | done r =>
      have hstep : schedStep fate t tasks st i = (tasks.set i (Phase.done r), st) := by
        simp only [schedStep, hget, stepTask]
      have hstep1 : (schedStep fate t tasks st i).1 = tasks.set i (Phase.done r) := by
        rw [hstep]
      have hstep2 : (schedStep fate t tasks st i).2 = st := by rw [hstep]
      rw [hstep1, hstep2]
      have hcnt := countP_set_balance isStartB tasks i (Phase.done r) (Phase.done r) hget
      simp at hcnt
      refine ⟨?_, ?_, hC, ?_, ?_, hP1, ?_⟩
      · intro c2 hm
        rcases List.mem_or_eq_of_mem_set hm with hm2 | hm2
        · exact hA c2 hm2
        · cases hm2
      · intro r2 hm
        rcases List.mem_or_eq_of_mem_set hm with hm2 | hm2
        · exact hD r2 hm2
        · injection hm2 with hm2
          subst hm2
          exact hD _ hmem
      · omega
      · rw [List.length_set]; exact hL
      · intro hpos
        apply hP2
        rw [List.countP_pos_iff]
        exact ⟨Phase.done r, hmem, by simp⟩

theorem runSched_inv (fate : Nat → Bool) (hfate : ∀ k, fate k = true)
    (t : String) (n0 : Nat) (sched : List Nat) (tasks : List Phase) (st : RState)
    (h : SchedInv t n0 tasks st) :
    SchedInv t n0 (runSched fate t sched (tasks, st)).1
      (runSched fate t sched (tasks, st)).2 := by
  induction sched generalizing tasks st with
  | nil => exact h
  | cons i rest ih =>
    simp only [runSched]
    have h1 := schedStep_inv fate hfate t n0 tasks st i h
    cases hss : schedStep fate t tasks st i with
    | mk tasks1 st1 =>
      rw [hss] at h1
      exact ih tasks1 st1 h1

theorem schedInv_init (t : String) (n : Nat) :
    SchedInv t n (List.replicate n Phase.start) ⟨[], 0, 0⟩ := by
  refine ⟨?_, ?_, ?_, ?_, ?_, ?_, ?_⟩
  · intro c hm
    cases List.eq_of_mem_replicate hm
  · intro r hm
    cases List.eq_of_mem_replicate hm
  · intro e he
    cases he
  · have := List.countP_le_length (l := List.replicate n Phase.start) (p := isStartB)
    simp only [List.length_replicate] at this
    dsimp only
    omega
  · exact List.length_replicate _ _
  · intro hc
    cases hc rfl
  · intro hpos
    rw [List.countP_pos_iff] at hpos
    obtain ⟨ph, hm, hph⟩ := hpos
    cases List.eq_of_mem_replicate hm
    simp [isStartB] at hph

/-- C5 amended: for every cooperative interleaving of n concurrent
`getTenantConnection t` calls from a fresh state, with every open
succeeding, every completed call receives a handle to the tenant's single
namespace `tenant_` + normalized id; the number of connection-open
sequences is at most n (one per call, not one per key: there is no
single-flight gate) and at least one once any call has progressed. -/
theorem concurrent_resolve_bounds (fate : Nat → Bool) (hfate : ∀ k, fate k = true)
    (t : String) (n : Nat) (sched : List Nat) :
    (∀ r : Except String Conn, Phase.done r ∈ (runResolves fate t n sched).1 →
      ∃ c : Conn, r = Except.ok c ∧ c.dbName = dbNameOf t) ∧
    (runResolves fate t n sched).2.opens ≤ n ∧
    (0 < (runResolves fate t n sched).1.countP (fun ph => !(isStartB ph)) →
      1 ≤ (runResolves fate t n sched).2.opens) := by
  have h := runSched_inv fate hfate t n sched (List.replicate n Phase.start)
    ⟨[], 0, 0⟩ (schedInv_init t n)
  obtain ⟨-, hD, -, hB, -, -, hP2⟩ := h
  simp only [runResolves]
  exact ⟨hD, by omega, hP2⟩

/-- Witness for the amended C5 at two interleaved calls for tenant xyz:
both calls complete, at most two and at least one open occurred. -/
theorem concurrent_resolve_bounds_witness :
    (runResolves (fun _ => true) "xyz" 2 [0, 1, 0, 1]).2.opens ≤ 2 ∧
    1 ≤ (runResolves (fun _ => true) "xyz" 2 [0, 1, 0, 1]).2.opens := by
  have h := concurrent_resolve_bounds (fun _ => true) (fun _ => rfl) "xyz" 2 [0, 1, 0, 1]
  exact ⟨h.2.1, h.2.2 (by decide)⟩

/-- Counterexample to C5 as stated: two interleaved `getTenantConnection`
calls for the uncached tenant xyz, both passing the cache check before
either open completes, perform two connection-open sequences — not exactly
one; the code has no per-key mutual-exclusion gate. -/
theorem concurrent_resolve_two_opens :
    (runResolves (fun _ => true) "xyz" 2 [0, 1, 0, 1]).2.opens = 2 ∧
    (runResolves (fun _ => true) "xyz" 2 [0, 1, 0, 1]).2.opens ≠ 1 := by
  constructor
  · rfl
  · decide

/-! ## User listing route (claim C7)

GET /register/:tenantId/users destructures `page = 1, limit = 10` from the
query (defaults apply only when the property is absent), computes
`skip = (parseInt(page) - 1) * parseInt(limit)`, queries the tenant store
with skip/limit and a descending createdAt sort, and reports
`totalPages = Math.ceil(totalUsers / parseInt(limit))`.  Query parameters
are strings; `parseInt` of a non-numeric string is NaN, modelled as `none`
and propagated through the arithmetic. -/

/-- A stored registration record, as the list and get-by-id routes see it. -/
structure UserRec where
  tenantId : String
  fields : List (String × String)
  createdAt : Nat
  uid : Nat
deriving DecidableEq, Repr

/-- Numeric value of a digit run. -/
def digitsVal (ds : List Char) : Nat :=
  ds.foldl (fun n c => n * 10 + (c.toNat - '0'.toNat)) 0

/-- JavaScript `parseInt` (radix 10): trim, optional sign, value of the
leading digit run, ignoring any trailing garbage; NaN (`none`) when no
leading digit exists.  (The hex auto-detection of `parseInt` on an `0x`
prefix is not modelled; no claim exercises it.) -/
def jsParseInt (s : String) : Option Int :=
  match (jsTrim s).data with
  | '-' :: rest =>
    let ds := rest.takeWhile Char.isDigit
    if ds.isEmpty then none else some (-(Int.ofNat (digitsVal ds)))
  | '+' :: rest =>
    let ds := rest.takeWhile Char.isDigit
    if ds.isEmpty then none else some (Int.ofNat (digitsVal ds))
  | rest =>
    let ds := rest.takeWhile Char.isDigit
    if ds.isEmpty then none else some (Int.ofNat (digitsVal ds))

/-- Effective page number: the destructuring default 1 when the query
parameter is absent, otherwise `parseInt` of the raw string. -/
def pageParsed (q : Option String) : Option Int :=
  match q with
  | none => some 1
  | some s => jsParseInt s

/-- Effective limit: the destructuring default 10 when absent, otherwise
`parseInt` of the raw string. -/
def limitParsed (q : Option String) : Option Int :=
  match q with
  | none => some 10
  | some s => jsParseInt s

/-- The (skip, limit) pair the route passes to the datastore:
`skip = (parseInt(page) - 1) * parseInt(limit)`, with NaN propagating. -/
def paginationParams (page limit : Option String) : Option Int × Option Int :=
  (match pageParsed page, limitParsed limit with
   | some p, some l => some ((p - 1) * l)
   | _, _ => none,
   limitParsed limit)

/-- Descending insertion by creation time. -/
def insertDesc (u : UserRec) : List UserRec → List UserRec
  | [] => [u]
  | v :: rest =>
    if u.createdAt ≤ v.createdAt then v :: insertDesc u rest
    else u :: v :: rest

/-- The datastore's `sort` on createdAt descending: records ordered by creation
time descending (sorting is an external MongoDB behaviour; its contract —
newest first — is what the route and the spec rely on). -/
def sortByCreatedDesc : List UserRec → List UserRec
  | [] => []
  | u :: rest => insertDesc u (sortByCreatedDesc rest)

/-- The datastore query of the list route: tenant filter, descending
creation-time sort, then skip and limit applied on the server.  NaN or
negative cursor values are rejected by the store (external behaviour; no
claim theorem depends on this branch). -/
def mongoListUsers (db : List UserRec) (tid : String) (sk li : Option Int) :
    Except String (List UserRec) :=
  match sk, li with
  | some sk, some li =>
    if sk < 0 ∨ li < 0 then .error "invalid skip or limit"
    else .ok (((sortByCreatedDesc (db.filter (fun u => u.tenantId == tid))).drop
                sk.toNat).take li.toNat)
  | _, _ => .error "NaN pagination value"

/-- `Math.ceil(totalUsers / limit)` for a natural count and the parsed
limit: exact ceiling division when the limit is a positive integer; NaN or
non-positive limits do not produce a number. -/
def jsCeilDiv (n : Nat) (li : Option Int) : Option Int :=
  match li with
  | none => none
  | some l => if l ≤ 0 then none else some ((Int.ofNat n + l - 1) / l)

/-- Body of the 200 response of the list route. -/
structure ListResult where
  users : List UserRec
  currentPage : Option Int
  totalPages : Option Int
  totalUsers : Nat
  limit : Option Int
deriving DecidableEq, Repr

/-- GET /register/:tenantId/users handler. -/
def listUsersRoute (db : List UserRec) (tid : String) (page limit : Option String) :
    Except String ListResult :=
  match mongoListUsers db tid (paginationParams page limit).1 (paginationParams page limit).2 with
  | .error e => .error e
  | .ok users =>
    .ok { users := users
          currentPage := pageParsed page
          totalPages := jsCeilDiv (db.filter (fun u => u.tenantId == tid)).length
            (limitParsed limit)
          totalUsers := (db.filter (fun u => u.tenantId == tid)).length
          limit := limitParsed limit }

theorem mem_insertDesc (u x : UserRec) (l : List UserRec) (h : x ∈ insertDesc u l) :
    x = u ∨ x ∈ l := by
  induction l with
  | nil => simpa [insertDesc] using h
  | cons v rest ih =>
    simp only [insertDesc] at h
    by_cases hc : u.createdAt ≤ v.createdAt
    · rw [if_pos hc] at h
      rcases List.mem_cons.mp h with h1 | h1
      · exact Or.inr (h1 ▸ List.mem_cons_self _ _)
      · rcases ih h1 with h2 | h2
        · exact Or.inl h2
        · exact Or.inr (List.mem_cons_of_mem _ h2)
    · rw [if_neg hc] at h
      rcases List.mem_cons.mp h with h1 | h1
      · exact Or.inl h1
      · exact Or.inr h1

theorem pairwise_insertDesc (u : UserRec) (l : List UserRec)
    (h : l.Pairwise (fun a b => b.createdAt ≤ a.createdAt)) :
    (insertDesc u l).Pairwise (fun a b => b.createdAt ≤ a.createdAt) := by
  induction l with
  | nil => simp [insertDesc]
  | cons v rest ih =>
    rcases List.pairwise_cons.mp h with ⟨hv, hrest⟩
    simp only [insertDesc]
    by_cases hc : u.createdAt ≤ v.createdAt
    · rw [if_pos hc]
      refine List.pairwise_cons.mpr ⟨?_, ih hrest⟩
      intro x hx
      rcases mem_insertDesc u x rest hx with h1 | h1
      · rw [h1]; exact hc
      · exact hv x h1
    · rw [if_neg hc]
      refine List.pairwise_cons.mpr ⟨?_, h⟩
      intro x hx
      rcases List.mem_cons.mp hx with h1 | h1
      · rw [h1]; omega
      · have := hv x h1; omega

theorem sortByCreatedDesc_pairwise (l : List UserRec) :
    (sortByCreatedDesc l).Pairwise (fun a b => b.createdAt ≤ a.createdAt) := by
  induction l with
  | nil => simp [sortByCreatedDesc]
  | cons u rest ih => exact pairwise_insertDesc u _ ih

/-- C7 amended: when the effective page and limit are positive integers —
which includes the absent-parameter defaults 1 and 10, but not invalid
strings — the route returns the tenant's records sorted newest-first with
the first (page-1)*limit of them skipped and at most limit taken, and
reports totalPages = ceiling(totalUsers / limit); the returned page is
ordered by creation time descending. -/
theorem list_users_pagination (db : List UserRec) (tid : String)
    (page limit : Option String) (pi li : Int)
    (hp : pageParsed page = some pi) (hl : limitParsed limit = some li)
    (hp1 : 1 ≤ pi) (hl1 : 1 ≤ li) :
    listUsersRoute db tid page limit = .ok
      { users := ((sortByCreatedDesc (db.filter (fun u => u.tenantId == tid))).drop
                    ((pi - 1) * li).toNat).take li.toNat
        currentPage := some pi
        totalPages := some ((Int.ofNat (db.filter (fun u => u.tenantId == tid)).length
                              + li - 1) / li)
        totalUsers := (db.filter (fun u => u.tenantId == tid)).length
        limit := some li } ∧
    (((sortByCreatedDesc (db.filter (fun u => u.tenantId == tid))).drop
        ((pi - 1) * li).toNat).take li.toNat).Pairwise
      (fun a b => b.createdAt ≤ a.createdAt) ∧
    pageParsed none = some 1 ∧ limitParsed none = some 10 := by
  have hsk : ¬((pi - 1) * li < 0 ∨ li < 0) := by
    push_neg
    refine ⟨mul_nonneg (by omega) (by omega), by omega⟩
  refine ⟨?_, ?_, rfl, rfl⟩
  · simp only [listUsersRoute, paginationParams, hp, hl, mongoListUsers, if_neg hsk,
      jsCeilDiv]
    rw [if_neg (by omega : ¬ li ≤ 0)]
  · exact (sortByCreatedDesc_pairwise _).sublist
      ((List.take_sublist _ _).trans (List.drop_sublist _ _))

/-- Counterexample to C7 as stated: an invalid (non-numeric) page parameter
is NOT replaced by the default of 1 — the destructuring default applies
only to an absent property, so parseInt yields NaN and the route passes a
NaN skip to the datastore (the request fails) instead of serving page 1. -/
theorem pagination_invalid_not_defaulted :
    paginationParams (some "abc") none = (none, some 10) ∧
    paginationParams (some "abc") none ≠ (some 0, some 10) ∧
    listUsersRoute [] "xyz" (some "abc") none = .error "NaN pagination value" := by
  refine ⟨rfl, by decide, rfl⟩

/-- Twenty-five records for tenant xyz with creation times 1..25. -/
def db25 : List UserRec :=
  (List.range 25).map (fun i =>
    { tenantId := "xyz", fields := [], createdAt := i + 1, uid := i + 1 })

/-- Witness for the amended C7: after inserting 25 records, page "2" with
limit "10" returns the 11th through 20th newest records (creation times 15
down to 6) and totalPages is 3. -/
theorem list_users_pagination_witness :
    (listUsersRoute db25 "xyz" (some "2") (some "10")).map
        (fun r => (r.users.map UserRec.createdAt, r.totalPages)) =
      .ok ([15, 14, 13, 12, 11, 10, 9, 8, 7, 6], some 3) := by
  have h := (list_users_pagination db25 "xyz" (some "2") (some "10") 2 10 rfl rfl
    (by decide) (by decide)).1
  rw [h]
  rfl

/-! ## Get-by-id route (claim C8)

GET /register/:tenantId/users/:userId binds
`const UserModel = getUserModel(tenantId)` WITHOUT `await` — unlike the two
sibling routes — although `getUserModel` is an async function.  `UserModel`
is therefore a pending Promise; `UserModel.findById` is `undefined`, the
call throws a TypeError, and the route's catch-all answers 500. -/

/-- The value the handler binds: either the model object (what an awaited
call yields) or the pending Promise of it (what the unawaited call yields). -/
inductive ModelRef where
  | model (tid : String)
  | promiseOfModel (tid : String)
deriving DecidableEq, Repr

/-- The unawaited `getUserModel(tenantId)` expression: an async function
call evaluates to a Promise. -/
def getUserModelNoAwait (tid : String) : ModelRef := ModelRef.promiseOfModel tid

/-- The call `UserModel.findById(userId)`: a model object looks the record
up in its (tenant-scoped) collection; on a Promise the property access
yields undefined and the call raises a TypeError. -/
def callFindById (db : List UserRec) (m : ModelRef) (uid : Nat) :
    Except String (Option UserRec) :=
  match m with
  | ModelRef.promiseOfModel _ =>
    .error "TypeError: UserModel.findById is not a function"
  | ModelRef.model _ => .ok (db.find? (fun u => u.uid == uid))

/-- HTTP status of the get-by-id handler as written: the thrown TypeError
reaches the catch-all (500); the 404 and 200 branches are unreachable. -/
def getUserByIdStatus (db : List UserRec) (tenantId : String) (uid : Nat) : Nat :=
  match callFindById db (getUserModelNoAwait tenantId) uid with
  | .error _ => 500
  | .ok none => 404
  | .ok (some _) => 200

/-- The same handler with the model awaited, as the sibling routes do —
the behaviour the claim and the route's own documentation describe. -/
def getUserByIdStatusAwaited (db : List UserRec) (tenantId : String) (uid : Nat) : Nat :=
  match callFindById db (ModelRef.model tenantId) uid with
  | .error _ => 500
  | .ok none => 404
  | .ok (some _) => 200

/-- C8 is violated by the code: because the handler never awaits
`getUserModel`, EVERY get-by-id request — including one for an existing
record — produces a 500 server error, never the claimed 200 or 404. -/
theorem get_user_by_id_always_500 (db : List UserRec) (tenantId : String) (uid : Nat) :
    getUserByIdStatus db tenantId uid = 500 := rfl

/-- The awaited variant at the same inputs answers exactly as the claim
says: 200 for a stored record, 404 for an absent one. -/
theorem get_user_by_id_awaited_contrast :
    getUserByIdStatus [⟨"xyz", [], 1, 7⟩] "xyz" 7 = 500 ∧
    getUserByIdStatusAwaited [⟨"xyz", [], 1, 7⟩] "xyz" 7 = 200 ∧
    getUserByIdStatusAwaited [⟨"xyz", [], 1, 7⟩] "xyz" 8 = 404 :=
  ⟨rfl, rfl, rfl⟩

/-! ## Schema-registry update (claim C9) -/

/-- A document of the FieldSchema collection. -/
structure FieldSchemaDoc where
  tenantId : String
  fields : List Field
deriving DecidableEq, Repr

/-- `FieldSchema.findOne` keyed by tenantId: first document with the key. -/
def findOneSchema : List FieldSchemaDoc → String → Option FieldSchemaDoc
  | [], _ => none
  | d :: rest, tid => if d.tenantId == tid then some d else findOneSchema rest tid

/-- `findOneAndUpdate` on the tenantId key with the new fields array:
replace the fields array of the first matching document wholly and return
the updated document, or `none` when no document matches. -/
def findOneAndUpdateFields : List FieldSchemaDoc → String → List Field →
    Option FieldSchemaDoc × List FieldSchemaDoc
  | [], _, _ => (none, [])
  | d :: rest, tid, fs =>
    if d.tenantId == tid then
      (some { d with fields := fs }, { d with fields := fs } :: rest)
    else
      ((findOneAndUpdateFields rest tid fs).1, d :: (findOneAndUpdateFields rest tid fs).2)

/-- Outcome of PUT /admin/schemas/:tenantId. -/
inductive UpdateOutcome where
  | badRequest
  | notFound
  | ok (d : FieldSchemaDoc)
deriving DecidableEq, Repr

/-- PUT /admin/schemas/:tenantId handler: 400 when the body carries no
fields array, 404 when no schema exists for the tenant, else the update. -/
def updateSchemaRoute (store : List FieldSchemaDoc) (tid : String)
    (fields : Option (List Field)) : UpdateOutcome × List FieldSchemaDoc :=
  match fields with
  | none => (UpdateOutcome.badRequest, store)
  | some fs =>
    match findOneAndUpdateFields store tid fs with
    | (none, store2) => (UpdateOutcome.notFound, store2)
    | (some d, store2) => (UpdateOutcome.ok d, store2)

theorem findOneAndUpdate_none (store : List FieldSchemaDoc) (tid : String)
    (fs : List Field) (h : findOneSchema store tid = none) :
    findOneAndUpdateFields store tid fs = (none, store) := by
  induction store with
  | nil => rfl
  | cons d rest ih =>
    by_cases hd : (d.tenantId == tid) = true
    · simp only [findOneSchema, if_pos hd] at h
      cases h
    · simp only [findOneSchema, if_neg hd] at h
      simp only [findOneAndUpdateFields, if_neg hd]
      rw [ih h]

theorem findOneAndUpdate_some (store : List FieldSchemaDoc) (tid : String)
    (fs : List Field) (d : FieldSchemaDoc) (h : findOneSchema store tid = some d) :
    (findOneAndUpdateFields store tid fs).1 = some { d with fields := fs } ∧
    findOneSchema (findOneAndUpdateFields store tid fs).2 tid
      = some { d with fields := fs } := by
  induction store with
  | nil => cases h
  | cons e rest ih =>
    by_cases he : (e.tenantId == tid) = true
    · simp only [findOneSchema, if_pos he] at h
      injection h with h
      subst h
      constructor
      · simp [findOneAndUpdateFields, he]
      · simp only [findOneAndUpdateFields, if_pos he]
        simp only [findOneSchema, if_pos he]
    · simp only [findOneSchema, if_neg he] at h
      obtain ⟨ih1, ih2⟩ := ih h
      constructor
      · simp only [findOneAndUpdateFields, if_neg he]
        exact ih1
      · simp only [findOneAndUpdateFields, if_neg he]
        simp only [findOneSchema, if_neg he]
        exact ih2

/-- C9: the schema update answers NotFound and leaves the registry
unchanged when no schema exists for the tenant; otherwise it replaces the
stored fields sequence entirely with the submitted one (no merging with
prior field definitions), keeps the tenantId unchanged, and the stored
document afterwards carries exactly the submitted fields; a body without a
fields array is rejected without touching the registry. -/
theorem update_schema_characterisation (store : List FieldSchemaDoc) (tid : String)
    (fs : List Field) :
    (findOneSchema store tid = none →
      updateSchemaRoute store tid (some fs) = (UpdateOutcome.notFound, store)) ∧
    (∀ d : FieldSchemaDoc, findOneSchema store tid = some d →
      (updateSchemaRoute store tid (some fs)).1 = UpdateOutcome.ok { d with fields := fs } ∧
      ({ d with fields := fs } : FieldSchemaDoc).tenantId = d.tenantId ∧
      ({ d with fields := fs } : FieldSchemaDoc).fields = fs ∧
      findOneSchema (updateSchemaRoute store tid (some fs)).2 tid
        = some { d with fields := fs }) ∧
    updateSchemaRoute store tid none = (UpdateOutcome.badRequest, store) := by
  refine ⟨?_, ?_, rfl⟩
  · intro h
    simp only [updateSchemaRoute, findOneAndUpdate_none store tid fs h]
  · intro d h
    obtain ⟨h1, h2⟩ := findOneAndUpdate_some store tid fs d h
    refine ⟨?_, rfl, rfl, ?_⟩
    · simp only [updateSchemaRoute]
      cases hfu : findOneAndUpdateFields store tid fs with
      | mk r store2 =>
        rw [hfu] at h1
        simp only at h1
        subst h1
        rfl
    · simp only [updateSchemaRoute]
      cases hfu : findOneAndUpdateFields store tid fs with
      | mk r store2 =>
        rw [hfu] at h1 h2
        simp only at h1 h2
        subst h1
        exact h2

/-- Witness for C9: a registry holding the xyz schema with the name field;
updating with the email field wholly replaces the field list (the old
definition does not survive), and updating an empty registry is NotFound. -/
theorem update_schema_characterisation_witness :
    (updateSchemaRoute [⟨"xyz", [nameField]⟩] "xyz" (some [emailField])).1
        = UpdateOutcome.ok ⟨"xyz", [emailField]⟩ ∧
    updateSchemaRoute [] "xyz" (some [emailField]) = (UpdateOutcome.notFound, []) := by
  refine ⟨?_, (update_schema_characterisation [] "xyz" [emailField]).1 rfl⟩
  exact ((update_schema_characterisation [⟨"xyz", [nameField]⟩] "xyz" [emailField]).2.1
    ⟨"xyz", [nameField]⟩ rfl).1

end DynReg
